import Mathlib

/-!
Verification of the agent notebooks of the DEVWKS-2382 workshop repository.

The repository contains three Python notebooks:

* a hand-rolled ReAct agent (an `Agent` class keeping a chat transcript, a
  regular expression `action_re = ^Action: (\w+): (.*)$` selecting actions,
  a dictionary `known_actions`, and a turn-bounded `query` loop);
* an AI network assistant (`execute_cisco_command` wrapping an SSH session
  in try/except, `analyze_logs` scanning logs for errors and warnings with
  `re.findall`, and an interactive `__main__` loop);
* a LangGraph agent (class `Agent` with nodes `llm` and `action`, methods
  `exists_action`, `call_openai` and `take_action`).

External effects (the OpenAI model, Python `eval`, the netmiko SSH session)
are modelled as oracle parameters; everything the repository itself defines
is embedded as executable Lean functions below.  Machine integers play no
role; all data is strings and lists.
-/

/- ===================== generic list helpers ===================== -/

/-- Boolean prefix test on character lists. -/
def isPrefixL : List Char → List Char → Bool
  | [], _ => true
  | _ :: _, [] => false
  | x :: xs, y :: ys => x == y && isPrefixL xs ys

/-- Python's `needle in hay` substring test on character lists. -/
def containsSub (pat : List Char) : List Char → Bool
  | [] => isPrefixL pat []
  | c :: rest => isPrefixL pat (c :: rest) || containsSub pat rest

/-- Python's `s.split('\n')`: split on every newline, keeping empty pieces. -/
def splitNl : List Char → List (List Char)
  | [] => [[]]
  | c :: rest =>
    if c = '\n' then [] :: splitNl rest
    else
      match splitNl rest with
      | [] => [[c]]
      | g :: gs => (c :: g) :: gs

/-- Python's `"\n".join(pieces)` on character lists. -/
def joinNL : List (List Char) → List Char
  | [] => []
  | [x] => x
  | x :: y :: r => x ++ '\n' :: joinNL (y :: r)

/-- Python's `s.lower()` on strings, character by character. -/
def pyLower (s : String) : String :=
  String.mk (s.data.map Char.toLower)

/- ===================== notebook 1: hand-rolled ReAct agent ===================== -/

/-- One entry of the chat transcript, Python `{"role": ..., "content": ...}`. -/
structure ChatMsg where
  role : String
  content : String
deriving DecidableEq

/-- The hand-rolled `Agent` class: a system string and the message list. -/
structure RAgent where
  system : String
  messages : List ChatMsg
deriving DecidableEq

/-- `Agent.__init__(self, system="")`: store the system string and seed the
transcript with a system entry when the string is non-empty (Python string
truthiness). -/
def RAgent.init (system : String) : RAgent :=
  { system := system
    messages := if system = "" then [] else [⟨"system", system⟩] }

/-- `Agent.__call__(self, message)`: append the user entry, run `execute`
(the OpenAI chat completion, modelled by the oracle `llm` applied to the
transcript as updated), append the assistant entry, return the reply. -/
def RAgent.call (llm : List ChatMsg → String) (a : RAgent) (message : String) :
    RAgent × String :=
  ({ a with
      messages := (a.messages ++ [⟨"user", message⟩]) ++
        [⟨"assistant", llm (a.messages ++ [⟨"user", message⟩])⟩] },
   llm (a.messages ++ [⟨"user", message⟩]))

/-- A sequence of `Agent.__call__` invocations, folding the state through. -/
def callMany (llm : List ChatMsg → String) (a : RAgent) (ms : List String) : RAgent :=
  ms.foldl (fun st m => (RAgent.call llm st m).1) a

/-- The ReAct system prompt of the notebook (the value of `prompt` after
`.strip()`). -/
def react_prompt : String :=
  "You run in a loop of Thought, Action, PAUSE, Observation.\nAt the end of the loop you output an Answer.\nUse Thought to describe your thoughts about the question you have been asked.\nUse Action to run one of the actions available to you - then return PAUSE.\nObservation will be the result of running those actions.\n\nYour available actions are:\n\ncalculate:\ne.g. calculate: 4 * 7 / 3\nRuns a calculation and returns the number - uses Python so be sure to use floating point syntax if necessary\n\naverage_elephant_weight:\ne.g. average_elephant_weight: African Elephant\nReturns the average weight of an elephant species when given the species name.\n\nExample session:\n\nQuestion: How much does an African Elephant weigh?\nThought: I should look up the elephant\x27s weight using average_elephant_weight.\nAction: average_elephant_weight: African Elephant\nPAUSE\n\nYou will be called again with this:\n\nObservation: An African Elephant weighs 12,000 lbs.\n\nYou then output:\n\nAnswer: An African Elephant weighs 12,000 lbs."

/-- `average_elephant_weight(species)`: dictionary lookup on the lower-cased
species name, defaulting to the unknown-species message. -/
def average_elephant_weight (species : String) : String :=
  let key := pyLower species
  if key = "african elephant" then "An African Elephant weighs 12,000 lbs"
  else if key = "asian elephant" then "An Asian Elephant weighs 8,800 lbs"
  else if key = "forest elephant" then "A Forest Elephant weighs 6,000 lbs"
  else if key = "pygmy elephant" then "A Pygmy Elephant weighs 5,500 lbs"
  else if key = "indian elephant" then "An Indian Elephant weighs 9,000 lbs"
  else if key = "sumatran elephant" then "A Sumatran Elephant weighs 6,600 lbs"
  else if key = "sri lankan elephant" then "A Sri Lankan Elephant weighs 10,000 lbs"
  else "Unknown elephant species"

/-- The `known_actions` dictionary.  `calculate(what)` is `eval(what)`, the
Python interpreter builtin, which is modelled by the oracle `pyEval`
(string of the evaluated value). -/
def knownActions (pyEval : String → String) : List (String × (String → String)) :=
  [("calculate", pyEval), ("average_elephant_weight", average_elephant_weight)]

/-- A word character of the regular expression class `\w` (letters, digits,
underscore). -/
def isWordChar (c : Char) : Bool :=
  c.isAlphanum || c == '_'

/-- `action_re.match(line)` for `action_re = re.compile(r'^Action: (\w+): (.*)$')`,
returning the two capture groups.  `re.match` anchors at the start; `(\w+)`
takes the maximal word-character run (backtracking cannot shorten it, since
the following literal `:` is not a word character); `.` does not match a
newline, and `$` matches at the end of the string or just before one final
trailing newline. -/
def matchActionCs (line : List Char) : Option (List Char × List Char) :=
  if isPrefixL "Action: ".data line then
    let rest := line.drop 8
    let nc := rest.takeWhile isWordChar
    let r2 := rest.dropWhile isWordChar
    if nc = [] then none
    else
      match r2 with
      | ':' :: ' ' :: tail =>
        let body := tail.takeWhile (fun c => c ≠ '\n')
        let left := tail.dropWhile (fun c => c ≠ '\n')
        if left = [] ∨ left = ['\n'] then some (nc, body) else none
      | _ => none
  else none

/-- The list comprehension of `query`:
`[action_re.match(a) for a in result.split('\n') if action_re.match(a)]`,
with the groups of each match extracted. -/
def parsedActions (result : String) : List (String × String) :=
  ((splitNl result.data).filterMap matchActionCs).map
    fun p => (String.mk p.1, String.mk p.2)

/-- Observable events of one run of the `query` loop: each model call (with
the prompt sent and the reply), and each executed action (with its
observation). -/
inductive QEvent where
  | modelCall (prompt response : String)
  | runAction (name input obs : String)
deriving DecidableEq

/-- How a run of `query` ends: a normal `return` (early exit or the
`while i < max_turns` bound), or an uncaught `Exception`. -/
inductive QOutcome where
  | returned
  | raised (msg : String)
deriving DecidableEq

/-- The body of `query`'s `while i < max_turns` loop, with `rem` the number
of iterations the bound still allows.  Each iteration calls the agent, scans
the reply for action lines, executes `actions[0]` when present (raising on an
unknown action name), and otherwise returns. -/
def queryLoop (pyEval : String → String) (llm : List ChatMsg → String) :
    RAgent → String → Nat → List QEvent × QOutcome
  | _, _, 0 => ([], .returned)
  | bot, next_prompt, rem + 1 =>
    match parsedActions (RAgent.call llm bot next_prompt).2 with
    | [] => ([.modelCall next_prompt (RAgent.call llm bot next_prompt).2], .returned)
    | (action, action_input) :: _ =>
      match (knownActions pyEval).lookup action with
      | none =>
        ([.modelCall next_prompt (RAgent.call llm bot next_prompt).2],
         .raised ("Unknown action: " ++ action ++ ": " ++ action_input))
      | some f =>
        (.modelCall next_prompt (RAgent.call llm bot next_prompt).2 ::
           .runAction action action_input (f action_input) ::
           (queryLoop pyEval llm (RAgent.call llm bot next_prompt).1
             ("Observation: " ++ f action_input) rem).1,
         (queryLoop pyEval llm (RAgent.call llm bot next_prompt).1
           ("Observation: " ++ f action_input) rem).2)

/-- `query(question, max_turns=5)`: construct `Agent(prompt)` and run the
loop, producing the observable trace and the outcome. -/
def query (pyEval : String → String) (llm : List ChatMsg → String)
    (question : String) (max_turns : Nat := 5) : List QEvent × QOutcome :=
  queryLoop pyEval llm (RAgent.init react_prompt) question max_turns

/-- Number of model calls recorded in a `query` trace. -/
def countModelCalls (tr : List QEvent) : Nat :=
  (tr.filter fun e =>
    match e with
    | .modelCall _ _ => true
    | _ => false).length

/- ===================== notebook 2: network assistant ===================== -/

/-- `execute_cisco_command(command)`: the netmiko session
(`ConnectHandler` / `send_command` / `disconnect`) is the oracle
`runNetmiko`, whose `.error e` outcome stands for an exception `e` raised
inside the `try` block.  The function catches every exception and returns
the string `Error: <e>` instead. -/
def execute_cisco_command (runNetmiko : String → Except String String)
    (command : String) : Except String String :=
  match runNetmiko command with
  | .ok output => .ok output
  | .error e => .ok ("Error: " ++ e)

/-- One pass of the interactive `__main__` loop can quit or print a line. -/
inductive StepResult where
  | quit
  | printed (text : String)
deriving DecidableEq

/-- One iteration of the `__main__` loop: quit on `exit`/`quit`
(case-insensitively), otherwise run the agent (oracle `agentRun`, whose
`.error e` outcome stands for an exception) inside try/except and print
either the response or `Error: <e>`. -/
def interactiveStep (agentRun : String → Except String String)
    (user_input : String) : StepResult :=
  if pyLower user_input = "exit" ∨ pyLower user_input = "quit" then .quit
  else
    match agentRun user_input with
    | .ok response => .printed ("Response:\n" ++ response)
    | .error e => .printed ("Error: " ++ e)

/-- Scanner for `re.findall(r"<pat>.*", s, re.IGNORECASE)` where the pattern
`p :: ps` contains no newline: scan left to right; at a match of the pattern
(case-insensitively, comparing lower-cased characters) emit the match
extended to the end of its line (`.` does not match `\n`) and resume
scanning after the match, i.e. at that newline (`skip = true` skips to it);
otherwise advance one character. -/
def scanCI (p : Char) (ps : List Char) : Bool → List Char → List (List Char)
  | _, [] => []
  | true, c :: rest =>
    if c = '\n' then scanCI p ps false rest else scanCI p ps true rest
  | false, c :: rest =>
    if isPrefixL (p :: ps) ((c :: rest).map Char.toLower) then
      ((c :: rest).takeWhile (fun x => x ≠ '\n')) :: scanCI p ps true rest
    else
      scanCI p ps false rest

/-- `re.findall(r"<p::ps>.*", s, re.IGNORECASE)`. -/
def findall (p : Char) (ps : List Char) (s : List Char) : List (List Char) :=
  scanCI p ps false s

/-- `analyze_logs(log_data)`: collect every `error.*` match and then every
`warning.*` match (case-insensitive, each guarded by a substring test on the
lower-cased input), and return them newline-joined, or the fixed sentence
when nothing was collected. -/
def analyze_logs (log_data : List Char) : List Char :=
  let lowered := log_data.map Char.toLower
  let issues :=
    (if containsSub "error".data lowered then findall 'e' "rror".data log_data else [])
      ++ (if containsSub "warning".data lowered then findall 'w' "arning".data log_data else [])
  if issues = [] then "No issues found in the logs.".data else joinNL issues

/- ===================== notebook 3: LangGraph agent ===================== -/

/-- A tool call of an AI message: `{'name': ..., 'args': ..., 'id': ...}`
(the arguments are abstracted to a string payload). -/
structure ToolCall where
  name : String
  args : String
  id : String
deriving DecidableEq

/-- LangChain message kinds used by the notebook. -/
inductive LMessage where
  | system (content : String)
  | human (content : String)
  | ai (content : String) (tool_calls : List ToolCall)
  | tool (tool_call_id : String) (name : String) (content : String)
deriving DecidableEq

/-- The `tool_calls` attribute; only AI messages carry tool calls. -/
def toolCalls : LMessage → List ToolCall
  | .ai _ tcs => tcs
  | _ => []

/-- Whether a message is an AI message. -/
def isAI : LMessage → Bool
  | .ai _ _ => true
  | _ => false

/-- The dictionary `self.tools = {t.name: t for t in tools}`: for a repeated
name the later tool wins, so look the name up in the reversed list. -/
def toolsDict {R : Type} (tools : List (String × (String → R)))
    (name : String) : Option (String → R) :=
  tools.reverse.lookup name

/-- `Agent.exists_action(state)`: `len(state['messages'][-1].tool_calls) > 0`.
On an empty message list Python would raise; the graph never produces one,
and the embedding answers `false` there. -/
def exists_action (msgs : List LMessage) : Bool :=
  decide (0 < (toolCalls (msgs.getLastD (.ai "" []))).length)

/-- `Agent.take_action(state)`: for each tool call of the last message,
answer with a `ToolMessage` carrying the call's id and name, whose content is
`"bad tool name, retry"` when the name is not a key of the tools dictionary
and otherwise `str` (the oracle `pyStr`) of the tool's result on the call's
args.  On an empty message list Python would raise; the graph never produces
one, and the embedding processes no calls there. -/
def take_action {R : Type} (tools : List (String × (String → R)))
    (pyStr : R → String) (msgs : List LMessage) : List LMessage :=
  (toolCalls (msgs.getLastD (.ai "" []))).map fun t =>
    match toolsDict tools t.name with
    | none => LMessage.tool t.id t.name "bad tool name, retry"
    | some f => LMessage.tool t.id t.name (pyStr (f t.args))

/-- `Agent.call_openai(state)`: prepend the system message when the system
string is non-empty and invoke the model (oracle returning the content and
tool calls of the produced AI message). -/
def call_openai (system : String) (model : List LMessage → String × List ToolCall)
    (msgs : List LMessage) : LMessage :=
  LMessage.ai (model (if system = "" then msgs else LMessage.system system :: msgs)).1
    (model (if system = "" then msgs else LMessage.system system :: msgs)).2

/-- Nodes of the compiled graph visited during a run. -/
inductive NodeTag where
  | llm
  | action
deriving DecidableEq

/-- Abstract observable events of an agent run: a model call, or one tool
call processed by the tool-running step (with the tool name and argument
payload). -/
inductive AgentEvent where
  | modelCall
  | toolRun (name args : String)
deriving DecidableEq

/-- Result of a terminating run of the compiled graph: the visited nodes,
the observable events, and the final message state. -/
structure GraphRun where
  nodes : List NodeTag
  events : List AgentEvent
  final : List LMessage
deriving DecidableEq

/-- Execution of the compiled graph as wired in `Agent.__init__`: entry
point `llm`; after `llm` the conditional edge `exists_action` selects
`action` on `True` and `END` on `False`; after `action` the plain edge
returns to `llm`.  State updates append (the `operator.add` reducer).
`fuel` bounds the number of `llm` steps; `none` means the run did not
terminate within the given fuel. -/
def runAgentGraph {R : Type} (system : String)
    (tools : List (String × (String → R))) (pyStr : R → String)
    (model : List LMessage → String × List ToolCall) :
    Nat → List LMessage → Option GraphRun
  | 0, _ => none
  | fuel + 1, msgs =>
    let m := call_openai system model msgs
    if exists_action (msgs ++ [m]) then
      match runAgentGraph system tools pyStr model fuel
          ((msgs ++ [m]) ++ take_action tools pyStr (msgs ++ [m])) with
      | none => none
      | some gr =>
        some ⟨NodeTag.llm :: NodeTag.action :: gr.nodes,
              AgentEvent.modelCall ::
                ((toolCalls m).map fun t => AgentEvent.toolRun t.name t.args) ++ gr.events,
              gr.final⟩
    else some ⟨[NodeTag.llm], [AgentEvent.modelCall], msgs ++ [m]⟩

/-- The node sequence of a graph run that performed `k` action steps. -/
def altList : Nat → List NodeTag
  | 0 => [NodeTag.llm]
  | k + 1 => NodeTag.llm :: NodeTag.action :: altList k

/- ===================== comparison scaffolding (C7) ===================== -/

/-- Number of AI messages in a LangGraph state (how often the model has
answered so far). -/
def aiCount (msgs : List LMessage) : Nat :=
  (msgs.filter isAI).length

/-- Number of assistant entries in a ReAct transcript. -/
def assistantCount (msgs : List ChatMsg) : Nat :=
  (msgs.filter fun m => m.role == "assistant").length

/-- A model script: at each turn the model either requests one action
(`some (name, input)`) or gives a final answer (`none`). -/
def scriptedModel (script : Nat → Option (String × String))
    (msgs : List LMessage) : String × List ToolCall :=
  match script (aiCount msgs) with
  | none => ("final answer", [])
  | some (n, i) => ("", [⟨n, i, "call"⟩])

/-- The ReAct-style text a scripted model emits at one turn. -/
def scriptedResponse : Option (String × String) → String
  | none => "Answer: done"
  | some (n, i) => "Action: " ++ n ++ ": " ++ i ++ "\nPAUSE"

/-- The same script rendered as a chat-completion oracle for the hand-rolled
agent. -/
def scriptedLLM (script : Nat → Option (String × String))
    (msgs : List ChatMsg) : String :=
  scriptedResponse (script (assistantCount msgs))

/-- Expected observable events for a script that requests actions at turns
`t, t+1, ..., t+k-1` and answers at turn `t+k`. -/
def expectedEvents (script : Nat → Option (String × String)) :
    Nat → Nat → List AgentEvent
  | _, 0 => [AgentEvent.modelCall]
  | t, k + 1 =>
    match script t with
    | none => [AgentEvent.modelCall]
    | some (n, i) => AgentEvent.modelCall :: AgentEvent.toolRun n i ::
        expectedEvents script (t + 1) k

/-- Abstraction of a `query` trace to the shared event alphabet. -/
def queryAgentEvents : List QEvent → List AgentEvent
  | [] => []
  | QEvent.modelCall _ _ :: r => AgentEvent.modelCall :: queryAgentEvents r
  | QEvent.runAction n i _ :: r => AgentEvent.toolRun n i :: queryAgentEvents r

/-- Concrete script used below: one `calculate` request, then a final
answer. -/
def exampleScript : Nat → Option (String × String) :=
  fun t => if t = 0 then some ("calculate", "2 + 2") else none

/-- Concrete script that names a tool unknown to both agents. -/
def exampleBadScript : Nat → Option (String × String) :=
  fun t => if t = 0 then some ("foo", "x") else none

/-- Concrete stand-in for the Python `eval` oracle. -/
def exampleEval : String → String :=
  fun s => "evaluated " ++ s

/- ===================== helper lemmas: lists and the action regex ===================== -/

theorem isPrefixL_iff : ∀ (xs ys : List Char), isPrefixL xs ys = true ↔ ∃ t, ys = xs ++ t := by
  intro xs
  induction xs with
  | nil => intro ys; simp [isPrefixL]
  | cons x xs ih =>
    intro ys
    cases ys with
    | nil => simp [isPrefixL]
    | cons y ys =>
      simp only [isPrefixL, Bool.and_eq_true, beq_iff_eq, ih, List.cons_append,
        List.cons.injEq]
      constructor
      · rintro ⟨h1, t, h2⟩; exact ⟨t, h1.symm, h2⟩
      · rintro ⟨t, h1, h2⟩; exact ⟨h1.symm, t, h2⟩

theorem takeWhile_append_stop {p : Char → Bool} :
    ∀ (xs : List Char) (y : Char) (ys : List Char),
      (∀ x ∈ xs, p x = true) → p y = false →
      (xs ++ y :: ys).takeWhile p = xs := by
  intro xs
  induction xs with
  | nil => intro y ys _ hy; simp [List.takeWhile_cons, hy]
  | cons x xs ih =>
    intro y ys hall hy
    have hx : p x = true := hall x (List.mem_cons_self x xs)
    simp only [List.cons_append, List.takeWhile_cons, hx, if_true]
    rw [ih y ys (fun z hz => hall z (List.mem_cons_of_mem _ hz)) hy]

theorem dropWhile_append_stop {p : Char → Bool} :
    ∀ (xs : List Char) (y : Char) (ys : List Char),
      (∀ x ∈ xs, p x = true) → p y = false →
      (xs ++ y :: ys).dropWhile p = y :: ys := by
  intro xs
  induction xs with
  | nil => intro y ys _ hy; simp [List.dropWhile_cons, hy]
  | cons x xs ih =>
    intro y ys hall hy
    have hx : p x = true := hall x (List.mem_cons_self x xs)
    simp only [List.cons_append, List.dropWhile_cons, hx, if_true]
    exact ih y ys (fun z hz => hall z (List.mem_cons_of_mem _ hz)) hy

theorem splitNl_no_newline : ∀ (a : List Char), '\n' ∉ a → splitNl a = [a] := by
  intro a
  induction a with
  | nil => intro _; rfl
  | cons c r ih =>
    intro h
    have hc : ¬c = '\n' := by
      intro hc; exact h (by simp [hc])
    have hr : splitNl r = [r] := ih (fun hh => h (List.mem_cons_of_mem _ hh))
    simp [splitNl, hc, hr]

theorem splitNl_append_newline :
    ∀ (a b : List Char), '\n' ∉ a → splitNl (a ++ '\n' :: b) = a :: splitNl b := by
  intro a
  induction a with
  | nil => intro b _; simp [splitNl]
  | cons c r ih =>
    intro b h
    have hc : ¬c = '\n' := by
      intro hc; exact h (by simp [hc])
    have hr := ih b (fun hh => h (List.mem_cons_of_mem _ hh))
    simp only [List.cons_append, splitNl, hc, if_false]
    have hr2 : splitNl (r.append ('\n' :: b)) = r :: splitNl b := hr
    rw [hr2]

theorem matchActionCs_build (nc ic : List Char) (h1 : nc ≠ [])
    (h2 : ∀ c ∈ nc, isWordChar c = true) (h3 : '\n' ∉ ic) :
    matchActionCs ("Action: ".data ++ nc ++ ':' :: ' ' :: ic) = some (nc, ic) := by
  have hpre : isPrefixL "Action: ".data ("Action: ".data ++ (nc ++ ':' :: ' ' :: ic)) = true :=
    (isPrefixL_iff _ _).2 ⟨_, rfl⟩
  have hlen : ("Action: ".data).length = 8 := rfl
  have hd : ("Action: ".data ++ (nc ++ ':' :: ' ' :: ic)).drop 8 = nc ++ ':' :: ' ' :: ic := by
    rw [← hlen]; exact List.drop_left _ _
  have hcol : isWordChar ':' = false := by decide
  have htk : (nc ++ ':' :: ' ' :: ic).takeWhile isWordChar = nc :=
    takeWhile_append_stop nc ':' (' ' :: ic) h2 hcol
  have hdp : (nc ++ ':' :: ' ' :: ic).dropWhile isWordChar = ':' :: ' ' :: ic :=
    dropWhile_append_stop nc ':' (' ' :: ic) h2 hcol
  have hbody : ic.takeWhile (fun c => c ≠ '\n') = ic := by
    rw [List.takeWhile_eq_self_iff]
    intro x hx
    simp only [ne_eq, decide_eq_true_eq]
    intro hxeq; exact h3 (hxeq ▸ hx)
  have hleft : ic.dropWhile (fun c => c ≠ '\n') = [] := by
    rw [List.dropWhile_eq_nil_iff]
    intro x hx
    simp only [ne_eq, decide_eq_true_eq]
    intro hxeq; exact h3 (hxeq ▸ hx)
  simp only [matchActionCs, List.append_assoc, hpre, if_true, hd, htk, hdp, h1,
    if_false, hbody, hleft]
  simp

theorem matchActionCs_sound (line nc ic : List Char) (hnl : '\n' ∉ line)
    (h : matchActionCs line = some (nc, ic)) :
    line = "Action: ".data ++ nc ++ ':' :: ' ' :: ic ∧ nc ≠ [] ∧
      ∀ c ∈ nc, isWordChar c = true := by
  simp only [matchActionCs] at h
  split at h
  case isFalse => exact absurd h (by simp)
  case isTrue hpre =>
    obtain ⟨t, rfl⟩ := (isPrefixL_iff _ _).1 hpre
    have hlen : ("Action: ".data).length = 8 := rfl
    have hd : ("Action: ".data ++ t).drop 8 = t := by
      rw [← hlen]; exact List.drop_left _ _
    rw [hd] at h
    split at h
    case isTrue => exact absurd h (by simp)
    case isFalse hne =>
      split at h
      case h_2 => exact absurd h (by simp)
      case h_1 tail heq =>
        split at h
        case isFalse => exact absurd h (by simp)
        case isTrue hleft =>
          have hsplit : t = t.takeWhile isWordChar ++ t.dropWhile isWordChar :=
            (List.takeWhile_append_dropWhile isWordChar t).symm
          rw [heq] at hsplit
          have hni : '\n' ∉ tail := by
            intro hmem
            exact hnl (by
              rw [hsplit]
              simp [List.mem_append, hmem])
          have hbody : tail.takeWhile (fun c => c ≠ '\n') = tail := by
            rw [List.takeWhile_eq_self_iff]
            intro x hx
            simp only [ne_eq, decide_eq_true_eq]
            intro hxeq; exact hni (hxeq ▸ hx)
          rw [hbody] at h
          simp only [Option.some.injEq, Prod.mk.injEq] at h
          obtain ⟨hnc, hic⟩ := h
          subst hnc
          subst hic
          refine ⟨?_, hne, ?_⟩
          · conv_lhs => rw [hsplit]
            rfl
          · intro c hc
            exact List.mem_takeWhile_imp hc

theorem matchActionCs_spec (line nc ic : List Char) (hnl : '\n' ∉ line) :
    matchActionCs line = some (nc, ic) ↔
      line = "Action: ".data ++ nc ++ ':' :: ' ' :: ic ∧ nc ≠ [] ∧
        ∀ c ∈ nc, isWordChar c = true := by
  constructor
  · exact matchActionCs_sound line nc ic hnl
  · rintro ⟨h1, h2, h3⟩
    have hic : '\n' ∉ ic := by
      intro hmem
      exact hnl (by rw [h1]; simp [List.mem_append, hmem])
    rw [h1]
    exact matchActionCs_build nc ic h2 h3 hic

theorem parsedActions_answer_done : parsedActions "Answer: done" = [] := by decide

theorem parsedActions_scripted (n i : String) (hn : n.data ≠ [])
    (hw : ∀ c ∈ n.data, isWordChar c = true) (hi : '\n' ∉ i.data) :
    parsedActions ("Action: " ++ n ++ ": " ++ i ++ "\nPAUSE") = [(n, i)] := by
  have hnw : '\n' ∉ n.data := by
    intro hmem
    have := hw '\n' hmem
    simp [isWordChar] at this
  have ha : '\n' ∉ "Action: ".data ++ n.data ++ ':' :: ' ' :: i.data := by
    intro hmem
    simp only [List.mem_append, List.mem_cons] at hmem
    rcases hmem with (h1 | h2) | h3
    · exact absurd h1 (by decide)
    · exact hnw h2
    · rcases h3 with h3 | h3 | h3
      · exact absurd h3 (by decide)
      · exact absurd h3 (by decide)
      · exact hi h3
  have hdata : ("Action: " ++ n ++ ": " ++ i ++ "\nPAUSE").data =
      ("Action: ".data ++ n.data ++ ':' :: ' ' :: i.data) ++ '\n' :: "PAUSE".data := by
    have h1 : (": " : String).data = [':', ' '] := rfl
    have h2 : ("\nPAUSE" : String).data = '\n' :: "PAUSE".data := rfl
    simp only [String.data_append, h1, h2, List.append_assoc, List.cons_append,
      List.nil_append]
  have hsplit : splitNl ("Action: " ++ n ++ ": " ++ i ++ "\nPAUSE").data =
      ("Action: ".data ++ n.data ++ ':' :: ' ' :: i.data) :: ["PAUSE".data] := by
    rw [hdata, splitNl_append_newline _ _ ha, splitNl_no_newline "PAUSE".data (by decide)]
  have hm1 : matchActionCs ("Action: ".data ++ n.data ++ ':' :: ' ' :: i.data) =
      some (n.data, i.data) := matchActionCs_build n.data i.data hn hw hi
  have hm2 : matchActionCs "PAUSE".data = none := rfl
  simp only [parsedActions, hsplit, List.filterMap_cons, hm1, hm2, List.filterMap_nil,
    List.map_cons, List.map_nil]

theorem countModelCalls_nil : countModelCalls [] = 0 := rfl

theorem countModelCalls_cons_mc (p r : String) (l : List QEvent) :
    countModelCalls (QEvent.modelCall p r :: l) = countModelCalls l + 1 := by
  simp [countModelCalls, List.filter_cons]

theorem countModelCalls_cons_ra (n i o : String) (l : List QEvent) :
    countModelCalls (QEvent.runAction n i o :: l) = countModelCalls l := by
  simp [countModelCalls, List.filter_cons]

theorem queryLoop_count (pyEval : String → String) (llm : List ChatMsg → String) :
    ∀ (rem : Nat) (bot : RAgent) (np : String),
      countModelCalls (queryLoop pyEval llm bot np rem).1 ≤ rem := by
  intro rem
  induction rem with
  | zero => intro bot np; simp [queryLoop, countModelCalls_nil]
  | succ r ih =>
    intro bot np
    rcases hpa : parsedActions (RAgent.call llm bot np).2 with _ | ⟨⟨a, ainp⟩, rest⟩
    · simp only [queryLoop, hpa, countModelCalls_cons_mc, countModelCalls_nil]
      omega
    · rcases hlk : (knownActions pyEval).lookup a with _ | f
      · simp only [queryLoop, hpa, hlk, countModelCalls_cons_mc, countModelCalls_nil]
        omega
      · simp only [queryLoop, hpa, hlk, countModelCalls_cons_mc, countModelCalls_cons_ra]
        have := ih (RAgent.call llm bot np).1 ("Observation: " ++ f ainp)
        omega

theorem queryLoop_zero (pyEval : String → String) (llm : List ChatMsg → String) :
    ∀ (rem : Nat) (bot : RAgent) (np : String) (e : QEvent),
      (queryLoop pyEval llm bot np rem).1[0]? = some e →
      e = QEvent.modelCall np (RAgent.call llm bot np).2 := by
  intro rem bot np e h
  cases rem with
  | zero => simp [queryLoop] at h
  | succ r =>
    rcases hpa : parsedActions (RAgent.call llm bot np).2 with _ | ⟨⟨a, ainp⟩, rest⟩
    · simp only [queryLoop, hpa, List.getElem?_cons_zero, Option.some.injEq] at h
      exact h.symm
    · rcases hlk : (knownActions pyEval).lookup a with _ | f
      · simp only [queryLoop, hpa, hlk, List.getElem?_cons_zero, Option.some.injEq] at h
        exact h.symm
      · simp only [queryLoop, hpa, hlk, List.getElem?_cons_zero, Option.some.injEq] at h
        exact h.symm

theorem queryLoop_noAction (pyEval : String → String) (llm : List ChatMsg → String) :
    ∀ (rem : Nat) (bot : RAgent) (np : String) (i : Nat) (p r : String),
      (queryLoop pyEval llm bot np rem).1[i]? = some (QEvent.modelCall p r) →
      parsedActions r = [] →
      i + 1 = (queryLoop pyEval llm bot np rem).1.length ∧
        (queryLoop pyEval llm bot np rem).2 = QOutcome.returned := by
  intro rem
  induction rem with
  | zero => intro bot np i p r h _; simp [queryLoop] at h
  | succ rem ih =>
    intro bot np i p r h hr
    rcases hpa : parsedActions (RAgent.call llm bot np).2 with _ | ⟨⟨a, ainp⟩, rest⟩
    · simp only [queryLoop, hpa] at h ⊢
      cases i with
      | zero => simp
      | succ j => simp at h
    · rcases hlk : (knownActions pyEval).lookup a with _ | f
      · simp only [queryLoop, hpa, hlk] at h ⊢
        cases i with
        | zero =>
          simp only [List.getElem?_cons_zero, Option.some.injEq,
            QEvent.modelCall.injEq] at h
          rw [← h.2] at hr
          rw [hpa] at hr
          cases hr
        | succ j => simp at h
      · simp only [queryLoop, hpa, hlk] at h ⊢
        cases i with
        | zero =>
          simp only [List.getElem?_cons_zero, Option.some.injEq,
            QEvent.modelCall.injEq] at h
          rw [← h.2] at hr
          rw [hpa] at hr
          cases hr
        | succ i' =>
          cases i' with
          | zero => simp at h
          | succ j =>
            simp only [List.getElem?_cons_succ] at h
            have hih := ih (RAgent.call llm bot np).1 ("Observation: " ++ f ainp) j p r h hr
            refine ⟨?_, hih.2⟩
            have := hih.1
            simp only [List.length_cons]
            omega


theorem queryLoop_runAction (pyEval : String → String) (llm : List ChatMsg → String) :
    ∀ (rem : Nat) (bot : RAgent) (np : String) (i : Nat) (n inp obs : String),
      (queryLoop pyEval llm bot np rem).1[i + 1]? = some (QEvent.runAction n inp obs) →
      ∃ p r, (queryLoop pyEval llm bot np rem).1[i]? = some (QEvent.modelCall p r) ∧
        (parsedActions r).head? = some (n, inp) ∧
        ∃ f, (knownActions pyEval).lookup n = some f ∧ obs = f inp := by
  intro rem
  induction rem with
  | zero => intro bot np i n inp obs h; simp [queryLoop] at h
  | succ rem ih =>
    intro bot np i n inp obs h
    rcases hpa : parsedActions (RAgent.call llm bot np).2 with _ | ⟨⟨a, ainp⟩, rest⟩
    · simp only [queryLoop, hpa] at h
      simp at h
    · rcases hlk : (knownActions pyEval).lookup a with _ | f
      · simp only [queryLoop, hpa, hlk] at h
        simp at h
      · simp only [queryLoop, hpa, hlk] at h ⊢
        cases i with
        | zero =>
          simp only [List.getElem?_cons_succ, List.getElem?_cons_zero,
            Option.some.injEq, QEvent.runAction.injEq] at h
          obtain ⟨rfl, rfl, rfl⟩ := h
          refine ⟨np, (RAgent.call llm bot np).2, by simp, ?_, f, hlk, rfl⟩
          rw [hpa]
          rfl
        | succ i' =>
          cases i' with
          | zero =>
            simp only [List.getElem?_cons_succ] at h
            have := queryLoop_zero pyEval llm rem (RAgent.call llm bot np).1
              ("Observation: " ++ f ainp) _ h
            cases this
          | succ j =>
            simp only [List.getElem?_cons_succ] at h ⊢
            exact ih (RAgent.call llm bot np).1 ("Observation: " ++ f ainp) j n inp obs h

theorem queryLoop_dispatch (pyEval : String → String) (llm : List ChatMsg → String) :
    ∀ (rem : Nat) (bot : RAgent) (np : String) (i : Nat) (p r a inp : String),
      (queryLoop pyEval llm bot np rem).1[i]? = some (QEvent.modelCall p r) →
      (parsedActions r).head? = some (a, inp) →
      ((knownActions pyEval).lookup a = none →
          (queryLoop pyEval llm bot np rem).2 =
            QOutcome.raised ("Unknown action: " ++ a ++ ": " ++ inp) ∧
          (queryLoop pyEval llm bot np rem).1.length = i + 1)
      ∧ ∀ f, (knownActions pyEval).lookup a = some f →
          (queryLoop pyEval llm bot np rem).1[i + 1]? =
            some (QEvent.runAction a inp (f inp)) ∧
          ∀ p2 r2, (queryLoop pyEval llm bot np rem).1[i + 2]? =
              some (QEvent.modelCall p2 r2) →
            p2 = "Observation: " ++ f inp := by
  intro rem
  induction rem with
  | zero => intro bot np i p r a inp h _; simp [queryLoop] at h
  | succ rem ih =>
    intro bot np i p r a inp h hhead
    rcases hpa : parsedActions (RAgent.call llm bot np).2 with _ | ⟨⟨a0, ainp0⟩, rest⟩
    · simp only [queryLoop, hpa] at h ⊢
      cases i with
      | zero =>
        simp only [List.getElem?_cons_zero, Option.some.injEq,
          QEvent.modelCall.injEq] at h
        rw [← h.2, hpa] at hhead
        cases hhead
      | succ j => simp at h
    · rcases hlk : (knownActions pyEval).lookup a0 with _ | f0
      · simp only [queryLoop, hpa, hlk] at h ⊢
        cases i with
        | zero =>
          simp only [List.getElem?_cons_zero, Option.some.injEq,
            QEvent.modelCall.injEq] at h
          rw [← h.2, hpa] at hhead
          simp only [List.head?_cons, Option.some.injEq, Prod.mk.injEq] at hhead
          obtain ⟨rfl, rfl⟩ := hhead
          constructor
          · intro _; simp
          · intro f hf
            rw [hlk] at hf
            cases hf
        | succ j => simp at h
      · simp only [queryLoop, hpa, hlk] at h ⊢
        cases i with
        | zero =>
          simp only [List.getElem?_cons_zero, Option.some.injEq,
            QEvent.modelCall.injEq] at h
          rw [← h.2, hpa] at hhead
          simp only [List.head?_cons, Option.some.injEq, Prod.mk.injEq] at hhead
          obtain ⟨rfl, rfl⟩ := hhead
          constructor
          · intro hnone
            rw [hlk] at hnone
            cases hnone
          · intro f hf
            rw [hlk] at hf
            obtain rfl := Option.some.injEq .. ▸ hf
            constructor
            · simp
            · intro p2 r2 h2
              simp only [List.getElem?_cons_succ] at h2
              have := queryLoop_zero pyEval llm rem (RAgent.call llm bot np).1
                ("Observation: " ++ f0 ainp0) _ h2
              simp only [QEvent.modelCall.injEq] at this
              exact this.1
        | succ i' =>
          cases i' with
          | zero => simp at h
          | succ j =>
            simp only [List.getElem?_cons_succ] at h ⊢
            have hih := ih (RAgent.call llm bot np).1 ("Observation: " ++ f0 ainp0)
              j p r a inp h hhead
            constructor
            · intro hnone
              have := hih.1 hnone
              refine ⟨this.1, ?_⟩
              simp only [List.length_cons]
              omega
            · intro f hf
              exact hih.2 f hf

theorem assistantCount_call (llm : List ChatMsg → String) (bot : RAgent) (m : String) :
    assistantCount ((RAgent.call llm bot m).1).messages = assistantCount bot.messages + 1 := by
  have h1 : ((⟨"user", m⟩ : ChatMsg).role == "assistant") = false := rfl
  have h2 : ∀ s, ((⟨"assistant", s⟩ : ChatMsg).role == "assistant") = true := fun _ => rfl
  simp [RAgent.call, assistantCount, List.filter_append, List.filter_cons, h1, h2]

theorem scriptedLLM_call (script : Nat → Option (String × String)) (bot : RAgent)
    (m : String) :
    (RAgent.call (scriptedLLM script) bot m).2 =
      scriptedResponse (script (assistantCount bot.messages)) := by
  have h1 : ((⟨"user", m⟩ : ChatMsg).role == "assistant") = false := rfl
  simp [RAgent.call, scriptedLLM, assistantCount, List.filter_append, List.filter_cons, h1]

theorem queryLoop_scripted (pyEval : String → String)
    (script : Nat → Option (String × String)) :
    ∀ (k t rem : Nat) (bot : RAgent) (np : String),
      assistantCount bot.messages = t →
      k + 1 ≤ rem →
      (∀ j, j < k → ∃ n i, script (t + j) = some (n, i) ∧
        ((knownActions pyEval).lookup n).isSome = true ∧ n.data ≠ [] ∧
        (∀ c ∈ n.data, isWordChar c = true) ∧ '\n' ∉ i.data) →
      script (t + k) = none →
      queryAgentEvents (queryLoop pyEval (scriptedLLM script) bot np rem).1 =
        expectedEvents script t k ∧
      (queryLoop pyEval (scriptedLLM script) bot np rem).2 = QOutcome.returned := by
  intro k
  induction k with
  | zero =>
    intro t rem bot np hc hrem hgood hend
    obtain ⟨r, rfl⟩ : ∃ r, rem = r + 1 := ⟨rem - 1, by omega⟩
    simp only [Nat.add_zero] at hend
    have hres : (RAgent.call (scriptedLLM script) bot np).2 = "Answer: done" := by
      rw [scriptedLLM_call, hc, hend]
      rfl
    have hpa : parsedActions (RAgent.call (scriptedLLM script) bot np).2 = [] := by
      rw [hres]; exact parsedActions_answer_done
    simp only [queryLoop, hpa]
    simp [queryAgentEvents, expectedEvents]
  | succ k ih =>
    intro t rem bot np hc hrem hgood hend
    obtain ⟨r, rfl⟩ : ∃ r, rem = r + 1 := ⟨rem - 1, by omega⟩
    obtain ⟨n, i, hsc, hk, hn, hw, hi⟩ := hgood 0 (Nat.succ_pos k)
    simp only [Nat.add_zero] at hsc
    have hres : (RAgent.call (scriptedLLM script) bot np).2 =
        "Action: " ++ n ++ ": " ++ i ++ "\nPAUSE" := by
      rw [scriptedLLM_call, hc, hsc]
      rfl
    have hpa : parsedActions (RAgent.call (scriptedLLM script) bot np).2 = [(n, i)] := by
      rw [hres]
      exact parsedActions_scripted n i hn hw hi
    obtain ⟨f, hf⟩ := Option.isSome_iff_exists.1 hk
    simp only [queryLoop, hpa, hf]
    have hc2 : assistantCount ((RAgent.call (scriptedLLM script) bot np).1).messages =
        t + 1 := by
      rw [assistantCount_call, hc]
    have hgood2 : ∀ j, j < k → ∃ n2 i2, script (t + 1 + j) = some (n2, i2) ∧
        ((knownActions pyEval).lookup n2).isSome = true ∧ n2.data ≠ [] ∧
        (∀ c ∈ n2.data, isWordChar c = true) ∧ '\n' ∉ i2.data := by
      intro j hj
      have := hgood (j + 1) (by omega)
      rwa [show t + (j + 1) = t + 1 + j by omega] at this
    have hend2 : script (t + 1 + k) = none := by
      rwa [show t + (k + 1) = t + 1 + k by omega] at hend
    have hih := ih (t + 1) r (RAgent.call (scriptedLLM script) bot np).1
      ("Observation: " ++ f i) hc2 (by omega) hgood2 hend2
    constructor
    · simp only [queryAgentEvents]
      rw [hih.1]
      simp only [expectedEvents, hsc]
    · exact hih.2

theorem aiCount_append (a b : List LMessage) :
    aiCount (a ++ b) = aiCount a + aiCount b := by
  simp [aiCount, List.filter_append]

theorem aiCount_ai_singleton (c : String) (tcs : List ToolCall) :
    aiCount [LMessage.ai c tcs] = 1 := by
  simp [aiCount, List.filter_cons, isAI]

theorem aiCount_take_action {R : Type} (tools : List (String × (String → R)))
    (pyStr : R → String) (msgs : List LMessage) :
    aiCount (take_action tools pyStr msgs) = 0 := by
  simp only [aiCount, take_action, List.length_eq_zero]
  rw [List.filter_eq_nil_iff]
  intro x hx
  obtain ⟨t, _, rfl⟩ := List.mem_map.1 hx
  cases htd : toolsDict tools t.name <;> simp [htd, isAI]

theorem call_openai_scripted (script : Nat → Option (String × String)) (sys : String)
    (msgs : List LMessage) :
    call_openai sys (scriptedModel script) msgs =
      (match script (aiCount msgs) with
       | none => LMessage.ai "final answer" []
       | some (n, i) => LMessage.ai "" [⟨n, i, "call"⟩]) := by
  have hcount : aiCount (if sys = "" then msgs else LMessage.system sys :: msgs) =
      aiCount msgs := by
    by_cases hs : sys = "" <;> simp [hs, aiCount, List.filter_cons, isAI]
  cases hsc : script (aiCount msgs) with
  | none => simp [call_openai, scriptedModel, hcount, hsc]
  | some p =>
    cases p with
    | mk n i => simp [call_openai, scriptedModel, hcount, hsc]

theorem exists_action_concat_false (msgs : List LMessage) (c : String) :
    exists_action (msgs ++ [LMessage.ai c []]) = false := by
  simp [exists_action, List.getLastD_concat, toolCalls]

theorem exists_action_concat_true (msgs : List LMessage) (c : String) (tc : ToolCall)
    (tcs : List ToolCall) :
    exists_action (msgs ++ [LMessage.ai c (tc :: tcs)]) = true := by
  simp [exists_action, List.getLastD_concat, toolCalls]

theorem runAgentGraph_scripted {R : Type} (sys : String)
    (tools : List (String × (String → R))) (pyStr : R → String)
    (script : Nat → Option (String × String)) :
    ∀ (k t fuel : Nat) (msgs : List LMessage),
      aiCount msgs = t →
      k + 1 ≤ fuel →
      (∀ j, j < k → (script (t + j)).isSome = true) →
      script (t + k) = none →
      ∃ gr, runAgentGraph sys tools pyStr (scriptedModel script) fuel msgs = some gr ∧
        gr.events = expectedEvents script t k ∧ gr.nodes = altList k := by
  intro k
  induction k with
  | zero =>
    intro t fuel msgs hc hfuel hgood hend
    obtain ⟨f, rfl⟩ : ∃ f, fuel = f + 1 := ⟨fuel - 1, by omega⟩
    simp only [Nat.add_zero] at hend
    have hm : call_openai sys (scriptedModel script) msgs = LMessage.ai "final answer" [] := by
      rw [call_openai_scripted, hc, hend]
    refine ⟨⟨[NodeTag.llm], [AgentEvent.modelCall], msgs ++ [call_openai sys (scriptedModel script) msgs]⟩, ?_, rfl, rfl⟩
    simp only [runAgentGraph, hm, exists_action_concat_false]
    simp [hm]
  | succ k ih =>
    intro t fuel msgs hc hfuel hgood hend
    obtain ⟨f, rfl⟩ : ∃ f, fuel = f + 1 := ⟨fuel - 1, by omega⟩
    have h0 := hgood 0 (Nat.succ_pos k)
    simp only [Nat.add_zero] at h0
    obtain ⟨⟨n, i⟩, hsc⟩ := Option.isSome_iff_exists.1 h0
    have hm : call_openai sys (scriptedModel script) msgs =
        LMessage.ai "" [⟨n, i, "call"⟩] := by
      rw [call_openai_scripted, hc, hsc]
    have hcount2 : aiCount ((msgs ++ [LMessage.ai "" [⟨n, i, "call"⟩]]) ++
        take_action tools pyStr (msgs ++ [LMessage.ai "" [⟨n, i, "call"⟩]])) = t + 1 := by
      rw [aiCount_append, aiCount_append, aiCount_take_action, aiCount_ai_singleton, hc]
    have hgood2 : ∀ j, j < k → (script (t + 1 + j)).isSome = true := by
      intro j hj
      have := hgood (j + 1) (by omega)
      rwa [show t + (j + 1) = t + 1 + j by omega] at this
    have hend2 : script (t + 1 + k) = none := by
      rwa [show t + (k + 1) = t + 1 + k by omega] at hend
    obtain ⟨gr, hgr, hev, hnd⟩ := ih (t + 1) f
      ((msgs ++ [LMessage.ai "" [⟨n, i, "call"⟩]]) ++
        take_action tools pyStr (msgs ++ [LMessage.ai "" [⟨n, i, "call"⟩]]))
      hcount2 (by omega) hgood2 hend2
    refine ⟨⟨NodeTag.llm :: NodeTag.action :: gr.nodes,
      AgentEvent.modelCall :: AgentEvent.toolRun n i :: gr.events, gr.final⟩, ?_, ?_, ?_⟩
    · simp only [runAgentGraph, hm, exists_action_concat_true, if_true]
      rw [hgr]
      simp [toolCalls]
    · simp only [expectedEvents, hsc, hev]
    · simp only [altList, hnd]

theorem runAgentGraph_shape {R : Type} (sys : String)
    (tools : List (String × (String → R))) (pyStr : R → String)
    (model : List LMessage → String × List ToolCall) :
    ∀ (fuel : Nat) (msgs : List LMessage) (gr : GraphRun),
      runAgentGraph sys tools pyStr model fuel msgs = some gr →
      ∃ k, gr.nodes = altList k ∧
        ∃ m, gr.final.getLast? = some m ∧ isAI m = true ∧ toolCalls m = [] := by
  intro fuel
  induction fuel with
  | zero => intro msgs gr h; cases h
  | succ f ih =>
    intro msgs gr h
    simp only [runAgentGraph] at h
    split at h
    case isTrue hex =>
      split at h
      case h_1 => cases h
      case h_2 gr2 heq =>
        obtain ⟨k, hn, m, hm⟩ := ih _ gr2 heq
        obtain rfl := Option.some.injEq .. ▸ h
        exact ⟨k + 1, by simp [altList, hn], m, hm⟩
    case isFalse hex =>
      obtain rfl := Option.some.injEq .. ▸ h
      refine ⟨0, rfl, call_openai sys model msgs, ?_, ?_, ?_⟩
      · exact List.getLast?_concat _
      · simp [call_openai, isAI]
      · have hx : exists_action (msgs ++ [call_openai sys model msgs]) = false := by
          exact Bool.of_not_eq_true hex
        simp only [exists_action, List.getLastD_concat, decide_eq_false_iff_not,
          Nat.not_lt, Nat.le_zero, List.length_eq_zero] at hx
        exact hx

theorem runAgentGraph_none {R : Type} (sys : String)
    (tools : List (String × (String → R))) (pyStr : R → String)
    (model : List LMessage → String × List ToolCall)
    (hmodel : ∀ h, (model h).2 ≠ []) :
    ∀ (fuel : Nat) (msgs : List LMessage),
      runAgentGraph sys tools pyStr model fuel msgs = none := by
  intro fuel
  induction fuel with
  | zero => intro msgs; rfl
  | succ f ih =>
    intro msgs
    have hex : exists_action (msgs ++ [call_openai sys model msgs]) = true := by
      simp only [exists_action, List.getLastD_concat, call_openai, toolCalls,
        decide_eq_true_eq]
      exact List.length_pos.2 (hmodel _)
    simp only [runAgentGraph, hex, if_true, ih]

theorem altList_head (k : Nat) : (altList k)[0]? = some NodeTag.llm := by
  cases k <;> simp [altList]

theorem altList_getElem : ∀ (k i : Nat), i < (altList k).length →
    (altList k)[i]? = some (if i % 2 = 0 then NodeTag.llm else NodeTag.action) := by
  intro k
  induction k with
  | zero =>
    intro i hi
    simp only [altList, List.length_cons, List.length_nil] at hi
    have : i = 0 := by omega
    simp [altList, this]
  | succ k ih =>
    intro i hi
    match i with
    | 0 => simp [altList]
    | 1 => simp [altList]
    | (j + 2) =>
      have hj : j < (altList k).length := by
        simp only [altList, List.length_cons] at hi
        omega
      have := ih j hj
      simp only [altList, List.getElem?_cons_succ, this, Nat.add_mod_right]

theorem altList_getLast : ∀ (k : Nat), (altList k).getLast? = some NodeTag.llm := by
  intro k
  induction k with
  | zero => rfl
  | succ k ih =>
    cases k with
    | zero => rfl
    | succ k2 =>
      simp only [altList, List.getLast?_cons_cons] at ih ⊢
      exact ih

theorem scanCI_nil_iff (p : Char) (ps : List Char) :
    ∀ (s : List Char), scanCI p ps false s = [] ↔
      containsSub (p :: ps) (s.map Char.toLower) = false := by
  intro s
  induction s with
  | nil => simp [scanCI, containsSub, isPrefixL]
  | cons c rest ih =>
    by_cases hpre : isPrefixL (p :: ps) ((c :: rest).map Char.toLower) = true
    · have hunf : scanCI p ps false (c :: rest) =
          ((c :: rest).takeWhile (fun x => x ≠ '\n')) :: scanCI p ps true rest := by
        simp only [scanCI]
        rw [if_pos hpre]
      have hcontains : containsSub (p :: ps) ((c :: rest).map Char.toLower) = true := by
        rw [List.map_cons] at hpre ⊢
        simp [containsSub, hpre]
      rw [hunf, hcontains]
      simp
    · have hunf : scanCI p ps false (c :: rest) = scanCI p ps false rest := by
        simp only [scanCI]
        rw [if_neg hpre]
      have hpre2 : isPrefixL (p :: ps) ((c :: rest).map Char.toLower) = false := by
        simpa using hpre
      have hcontains : containsSub (p :: ps) ((c :: rest).map Char.toLower) =
          containsSub (p :: ps) (rest.map Char.toLower) := by
        rw [List.map_cons] at hpre2 ⊢
        simp [containsSub, hpre2]
      rw [hunf, hcontains]
      exact ih

theorem scanCI_mem_head (p : Char) (ps : List Char) (hp : p ≠ '\n') :
    ∀ (s : List Char) (mode : Bool) (m : List Char), m ∈ scanCI p ps mode s →
      ∃ c r2, m = c :: r2 ∧ Char.toLower c = p := by
  intro s
  induction s with
  | nil => intro mode m h; simp [scanCI] at h
  | cons c rest ih =>
    intro mode m h
    cases mode with
    | true =>
      by_cases hc : c = '\n'
      · rw [show scanCI p ps true (c :: rest) = scanCI p ps false rest by
          simp only [scanCI]; rw [if_pos hc]] at h
        exact ih false m h
      · rw [show scanCI p ps true (c :: rest) = scanCI p ps true rest by
          simp only [scanCI]; rw [if_neg hc]] at h
        exact ih true m h
    | false =>
      by_cases hpre : isPrefixL (p :: ps) ((c :: rest).map Char.toLower) = true
      · rw [show scanCI p ps false (c :: rest) =
            ((c :: rest).takeWhile (fun x => x ≠ '\n')) :: scanCI p ps true rest by
          simp only [scanCI]; rw [if_pos hpre]] at h
        rcases List.mem_cons.1 h with rfl | h2
        · have hlc : Char.toLower c = p := by
            rw [List.map_cons] at hpre
            simp only [isPrefixL, Bool.and_eq_true, beq_iff_eq] at hpre
            exact hpre.1.symm
          have hcn : ¬(c = '\n') := by
            intro hh
            rw [hh] at hlc
            exact hp (by simpa using hlc.symm)
          refine ⟨c, rest.takeWhile (fun x => x ≠ '\n'), ?_, hlc⟩
          simp [List.takeWhile_cons, hcn]
        · exact ih true m h2
      · rw [show scanCI p ps false (c :: rest) = scanCI p ps false rest by
          simp only [scanCI]; rw [if_neg hpre]] at h
        exact ih false m h

theorem joinNL_cons_head (c : Char) (r : List Char) (ms : List (List Char)) :
    ∃ r2, joinNL ((c :: r) :: ms) = c :: r2 := by
  cases ms with
  | nil => exact ⟨r, rfl⟩
  | cons y ys => exact ⟨r ++ '\n' :: joinNL (y :: ys), rfl⟩

theorem findall_error_nil_iff (log_data : List Char) :
    findall 'e' "rror".data log_data = [] ↔
      containsSub "error".data (log_data.map Char.toLower) = false :=
  scanCI_nil_iff 'e' "rror".data log_data

theorem findall_warning_nil_iff (log_data : List Char) :
    findall 'w' "arning".data log_data = [] ↔
      containsSub "warning".data (log_data.map Char.toLower) = false :=
  scanCI_nil_iff 'w' "arning".data log_data

theorem analyze_logs_eq (log_data : List Char) :
    analyze_logs log_data =
      (if findall 'e' "rror".data log_data ++ findall 'w' "arning".data log_data = []
       then "No issues found in the logs.".data
       else joinNL (findall 'e' "rror".data log_data ++
         findall 'w' "arning".data log_data)) := by
  have hissues :
      ((if containsSub "error".data (log_data.map Char.toLower) = true
        then findall 'e' "rror".data log_data else []) ++
       (if containsSub "warning".data (log_data.map Char.toLower) = true
        then findall 'w' "arning".data log_data else [])) =
      findall 'e' "rror".data log_data ++ findall 'w' "arning".data log_data := by
    by_cases hce : containsSub "error".data (log_data.map Char.toLower) = true
    · by_cases hcw : containsSub "warning".data (log_data.map Char.toLower) = true
      · rw [if_pos hce, if_pos hcw]
      · rw [if_pos hce, if_neg hcw,
          (findall_warning_nil_iff log_data).2 (by simpa using hcw)]
    · by_cases hcw : containsSub "warning".data (log_data.map Char.toLower) = true
      · rw [if_neg hce, if_pos hcw,
          (findall_error_nil_iff log_data).2 (by simpa using hce)]
      · rw [if_neg hce, if_neg hcw,
          (findall_error_nil_iff log_data).2 (by simpa using hce),
          (findall_warning_nil_iff log_data).2 (by simpa using hcw)]
  simp only [analyze_logs]
  rw [hissues]

theorem analyze_logs_pos (log_data : List Char)
    (h : containsSub "error".data (log_data.map Char.toLower) = true ∨
         containsSub "warning".data (log_data.map Char.toLower) = true) :
    analyze_logs log_data =
      joinNL (findall 'e' "rror".data log_data ++ findall 'w' "arning".data log_data) ∧
      analyze_logs log_data ≠ "No issues found in the logs.".data := by
  have hne : findall 'e' "rror".data log_data ++ findall 'w' "arning".data log_data ≠ [] := by
    intro hnil
    rw [List.append_eq_nil] at hnil
    rcases h with h | h
    · rw [(findall_error_nil_iff log_data).1 hnil.1] at h; cases h
    · rw [(findall_warning_nil_iff log_data).1 hnil.2] at h; cases h
  have heq : analyze_logs log_data =
      joinNL (findall 'e' "rror".data log_data ++ findall 'w' "arning".data log_data) := by
    rw [analyze_logs_eq, if_neg hne]
  refine ⟨heq, ?_⟩
  rw [heq]
  rcases hlist : findall 'e' "rror".data log_data ++ findall 'w' "arning".data log_data
    with _ | ⟨m0, mrest⟩
  · exact absurd hlist hne
  · have hm0 : m0 ∈ findall 'e' "rror".data log_data ∨
        m0 ∈ findall 'w' "arning".data log_data := by
      have hmem : m0 ∈ findall 'e' "rror".data log_data ++
          findall 'w' "arning".data log_data := by
        rw [hlist]; exact List.mem_cons_self m0 mrest
      exact List.mem_append.1 hmem
    have hhead : ∃ c r2, m0 = c :: r2 ∧ (Char.toLower c = 'e' ∨ Char.toLower c = 'w') := by
      rcases hm0 with hm | hm
      · obtain ⟨c, r2, hc, hl⟩ :=
          scanCI_mem_head 'e' "rror".data (by decide) log_data false m0 hm
        exact ⟨c, r2, hc, Or.inl hl⟩
      · obtain ⟨c, r2, hc, hl⟩ :=
          scanCI_mem_head 'w' "arning".data (by decide) log_data false m0 hm
        exact ⟨c, r2, hc, Or.inr hl⟩
    obtain ⟨c, r2, rfl, hl⟩ := hhead
    obtain ⟨r3, hjoin⟩ := joinNL_cons_head c r2 mrest
    rw [hjoin]
    have hsent : "No issues found in the logs.".data =
        'N' :: "o issues found in the logs.".data := rfl
    rw [hsent]
    intro hcontra
    have hcN : c = 'N' := (List.cons.injEq .. ▸ hcontra).1
    rw [hcN] at hl
    rcases hl with hl | hl <;> exact absurd hl (by decide)

theorem callMany_head (llm : List ChatMsg → String) :
    ∀ (ms : List String) (a : RAgent), a.messages ≠ [] →
      (callMany llm a ms).messages.head? = a.messages.head? ∧
        (callMany llm a ms).messages ≠ [] := by
  intro ms
  induction ms with
  | nil => intro a h; exact ⟨rfl, h⟩
  | cons m ms ih =>
    intro a h
    rcases hm : a.messages with _ | ⟨x, xs⟩
    · exact absurd hm h
    · have h2 : ((RAgent.call llm a m).1).messages ≠ [] := by
        simp [RAgent.call]
      have hrec := ih (RAgent.call llm a m).1 h2
      have hh : ((RAgent.call llm a m).1).messages.head? = some x := by
        simp [RAgent.call, hm]
      have hfold : callMany llm a (m :: ms) = callMany llm (RAgent.call llm a m).1 ms := rfl
      constructor
      · rw [hfold, hrec.1, hh]
        rfl
      · rw [hfold]
        exact hrec.2

/- ===================== the claims ===================== -/

/-- C1: In `Agent.take_action`, every tool call of the last message is
answered (no exception is raised; the embedding is total): where the call's
name is not a key of the tools dictionary, the resulting `ToolMessage` has
content `bad tool name, retry`, and where it is a key, the tool is invoked
on the call's args and the content is the stringified result. -/
theorem c1_take_action_dispatch {R : Type} (tools : List (String × (String → R)))
    (pyStr : R → String) (msgs : List LMessage) (last : LMessage)
    (hlast : msgs.getLast? = some last) :
    (take_action tools pyStr msgs).length = (toolCalls last).length ∧
    ∀ (i : Nat) (t : ToolCall), (toolCalls last)[i]? = some t →
      (toolsDict tools t.name = none →
        (take_action tools pyStr msgs)[i]? =
          some (LMessage.tool t.id t.name "bad tool name, retry")) ∧
      ∀ f, toolsDict tools t.name = some f →
        (take_action tools pyStr msgs)[i]? =
          some (LMessage.tool t.id t.name (pyStr (f t.args))) := by
  have hld : msgs.getLastD (LMessage.ai "" []) = last := by
    rw [List.getLastD_eq_getLast?, hlast]
    rfl
  constructor
  · rw [take_action, hld, List.length_map]
  · intro i t ht
    constructor
    · intro hnone
      rw [take_action, hld, List.getElem?_map, ht]
      simp [hnone]
    · intro f hf
      rw [take_action, hld, List.getElem?_map, ht]
      simp [hf]

/-- Witness for C1: a state whose last AI message carries one call to the
installed search tool and one call to a misspelled name. -/
theorem c1_take_action_dispatch_witness :
    (take_action [("tavily_search_results_json", fun s => "results for " ++ s)]
        (fun r => r)
        [LMessage.human "q",
         LMessage.ai "" [⟨"tavily_search_results_json", "query", "id1"⟩,
           ⟨"bogus_tool", "x", "id2"⟩]])[0]? =
      some (LMessage.tool "id1" "tavily_search_results_json" "results for query") ∧
    (take_action [("tavily_search_results_json", fun s => "results for " ++ s)]
        (fun r => r)
        [LMessage.human "q",
         LMessage.ai "" [⟨"tavily_search_results_json", "query", "id1"⟩,
           ⟨"bogus_tool", "x", "id2"⟩]])[1]? =
      some (LMessage.tool "id2" "bogus_tool" "bad tool name, retry") := by
  have h := c1_take_action_dispatch
    [("tavily_search_results_json", fun s => "results for " ++ s)] (fun r => r)
    [LMessage.human "q",
     LMessage.ai "" [⟨"tavily_search_results_json", "query", "id1"⟩,
       ⟨"bogus_tool", "x", "id2"⟩]]
    (LMessage.ai "" [⟨"tavily_search_results_json", "query", "id1"⟩,
       ⟨"bogus_tool", "x", "id2"⟩]) rfl
  exact ⟨(h.2 0 ⟨"tavily_search_results_json", "query", "id1"⟩ rfl).2 _ rfl,
         (h.2 1 ⟨"bogus_tool", "x", "id2"⟩ rfl).1 rfl⟩

/-- C2 counterexample: the claim that every operation other than the
bad-tool-name branch propagates exceptions is false on the code:
`execute_cisco_command` catches the exception `boom` raised by the netmiko
session and returns the normal value `Error: boom` instead of propagating,
and one iteration of the interactive `__main__` loop likewise catches an
exception from `agent.run` and prints it. -/
theorem c2_counterexample :
    execute_cisco_command (fun _ => Except.error "boom") "show version" =
      Except.ok "Error: boom" ∧
    (Except.ok "Error: boom" : Except String String) ≠ Except.error "boom" ∧
    interactiveStep (fun _ => Except.error "boom") "show version" =
      StepResult.printed "Error: boom" := by
  refine ⟨rfl, ?_, rfl⟩
  intro h
  cases h

/-- C2 amended: the bad-tool-name retry is not the only failure-recovery
branch: `execute_cisco_command` catches every exception of the SSH
interaction and returns the string `Error: <e>` as an ordinary value (it
never raises), and the interactive `__main__` loop catches every exception
of `agent.run` and prints `Error: <e>`, continuing. -/
theorem c2_amended_catch_branches :
    (∀ (runNetmiko : String → Except String String) (command : String),
      ∃ out, execute_cisco_command runNetmiko command = Except.ok out) ∧
    (∀ (runNetmiko : String → Except String String) (command e : String),
      runNetmiko command = Except.error e →
      execute_cisco_command runNetmiko command = Except.ok ("Error: " ++ e)) ∧
    (∀ (agentRun : String → Except String String) (user_input e : String),
      ¬(pyLower user_input = "exit" ∨ pyLower user_input = "quit") →
      agentRun user_input = Except.error e →
      interactiveStep agentRun user_input = StepResult.printed ("Error: " ++ e)) := by
  refine ⟨?_, ?_, ?_⟩
  · intro rn cmd
    cases h : rn cmd with
    | ok o => exact ⟨o, by simp [execute_cisco_command, h]⟩
    | error e => exact ⟨"Error: " ++ e, by simp [execute_cisco_command, h]⟩
  · intro rn cmd e h
    simp [execute_cisco_command, h]
  · intro ar ui e hq h
    simp [interactiveStep, hq, h]

/-- Witness for the amended C2: a session raising `timeout`. -/
theorem c2_amended_catch_branches_witness :
    execute_cisco_command (fun _ => Except.error "timeout") "show ip interface brief" =
      Except.ok ("Error: " ++ "timeout") ∧
    interactiveStep (fun _ => Except.error "timeout") "show clock" =
      StepResult.printed ("Error: " ++ "timeout") :=
  ⟨c2_amended_catch_branches.2.1 _ _ _ rfl,
   c2_amended_catch_branches.2.2 _ _ _ (by decide) rfl⟩

/-- C3: every terminating execution of the compiled graph starts at the
`llm` node and strictly alternates `llm` and `action`: the node at every
even position is `llm`, at every odd position `action`, and the last
visited node is `llm`; it terminates exactly when the message the `llm`
node just produced has an empty `tool_calls` list — on termination the
final state ends in an AI message with no tool calls, and with a model
whose answers always carry tool calls (`exists_action` never false) no
amount of fuel makes the run terminate. -/
theorem c3_graph_alternation {R : Type} (system : String)
    (tools : List (String × (String → R))) (pyStr : R → String)
    (model : List LMessage → String × List ToolCall) (msgs0 : List LMessage) :
    (∀ (fuel : Nat) (gr : GraphRun),
      runAgentGraph system tools pyStr model fuel msgs0 = some gr →
      gr.nodes[0]? = some NodeTag.llm ∧
      (∀ i, i < gr.nodes.length →
        gr.nodes[i]? = some (if i % 2 = 0 then NodeTag.llm else NodeTag.action)) ∧
      gr.nodes.getLast? = some NodeTag.llm ∧
      ∃ m, gr.final.getLast? = some m ∧ isAI m = true ∧ toolCalls m = []) ∧
    ((∀ h, (model h).2 ≠ []) →
      ∀ fuel, runAgentGraph system tools pyStr model fuel msgs0 = none) := by
  constructor
  · intro fuel gr hrun
    obtain ⟨k, hnodes, m, hm⟩ :=
      runAgentGraph_shape system tools pyStr model fuel msgs0 gr hrun
    refine ⟨?_, ?_, ?_, ⟨m, hm⟩⟩
    · rw [hnodes]; exact altList_head k
    · intro i hi
      rw [hnodes] at hi ⊢
      exact altList_getElem k i hi
    · rw [hnodes]; exact altList_getLast k
  · intro hmodel fuel
    exact runAgentGraph_none system tools pyStr model hmodel fuel msgs0

/-- Witness for C3: a scripted model that calls `calculate` once and then
stops, and a model that always requests a tool call and therefore never
lets the graph reach `END`. -/
theorem c3_graph_alternation_witness :
    (∃ gr, runAgentGraph "sys" (knownActions exampleEval) id
        (scriptedModel exampleScript) 3 [LMessage.human "q"] = some gr ∧
      gr.nodes[0]? = some NodeTag.llm ∧
      gr.nodes.getLast? = some NodeTag.llm ∧
      ∃ m, gr.final.getLast? = some m ∧ isAI m = true ∧ toolCalls m = []) ∧
    runAgentGraph "sys" (knownActions exampleEval) id
      (fun _ => ("", [⟨"t", "a", "c"⟩])) 7 [LMessage.human "q"] = none := by
  constructor
  · have hsome : (runAgentGraph "sys" (knownActions exampleEval) id
        (scriptedModel exampleScript) 3 [LMessage.human "q"]).isSome = true := by decide
    obtain ⟨gr, hgr⟩ := Option.isSome_iff_exists.1 hsome
    have h := (c3_graph_alternation "sys" (knownActions exampleEval) id
      (scriptedModel exampleScript) [LMessage.human "q"]).1 3 gr hgr
    exact ⟨gr, hgr, h.1, h.2.2.1, h.2.2.2⟩
  · exact (c3_graph_alternation "sys" (knownActions exampleEval) id
      (fun _ => ("", [⟨"t", "a", "c"⟩])) [LMessage.human "q"]).2 (fun _ => by decide) 7

/-- C4: `query(question, max_turns)` makes at most `max_turns` model calls
(one per iteration of the `while i < max_turns` loop, whose embedding is
structurally terminating), `max_turns` defaults to 5, and on the first
model response without a line matching the action regular expression the
function returns at once: that model call is the last event of the run (no
action is executed for it) and the outcome is a normal return. -/
theorem c4_query_bounded (pyEval : String → String) (llm : List ChatMsg → String)
    (question : String) (max_turns : Nat) :
    countModelCalls (query pyEval llm question max_turns).1 ≤ max_turns ∧
    query pyEval llm question = query pyEval llm question 5 ∧
    (∀ (i : Nat) (p r : String),
      (query pyEval llm question max_turns).1[i]? = some (QEvent.modelCall p r) →
      parsedActions r = [] →
      i + 1 = (query pyEval llm question max_turns).1.length ∧
      (query pyEval llm question max_turns).2 = QOutcome.returned) := by
  refine ⟨queryLoop_count pyEval llm max_turns _ question, rfl, ?_⟩
  intro i p r h hr
  exact queryLoop_noAction pyEval llm max_turns _ question i p r h hr

/-- Witness for C4: the scripted run ends on its third model call, whose
response `Answer: done` contains no action line. -/
theorem c4_query_bounded_witness :
    countModelCalls (query exampleEval (scriptedLLM exampleScript) "q" 5).1 ≤ 5 ∧
    2 + 1 = (query exampleEval (scriptedLLM exampleScript) "q" 5).1.length ∧
    (query exampleEval (scriptedLLM exampleScript) "q" 5).2 = QOutcome.returned := by
  have h := c4_query_bounded exampleEval (scriptedLLM exampleScript) "q" 5
  have h3 := h.2.2 2 "Observation: evaluated 2 + 2" "Answer: done" (by decide) (by decide)
  exact ⟨h.1, h3.1, h3.2⟩

/-- C5: a newline-free line (as produced by `result.split('\n')`) is
recognized by `action_re` exactly when it is `Action: ` followed by a
non-empty run of word characters, then a colon and a space, then the rest
of the line, with the word run and the rest as the two groups; and every
action `query` executes is taken from `actions[0]`: the head of the list of
matches of the response of the model call it follows. -/
theorem c5_action_regex :
    (∀ (line nc ic : List Char), '\n' ∉ line →
      (matchActionCs line = some (nc, ic) ↔
        line = "Action: ".data ++ nc ++ ':' :: ' ' :: ic ∧ nc ≠ [] ∧
        ∀ c ∈ nc, isWordChar c = true)) ∧
    (∀ (pyEval : String → String) (llm : List ChatMsg → String)
        (question : String) (max_turns i : Nat) (n inp obs : String),
      (query pyEval llm question max_turns).1[i + 1]? =
        some (QEvent.runAction n inp obs) →
      ∃ p r, (query pyEval llm question max_turns).1[i]? =
          some (QEvent.modelCall p r) ∧
        (parsedActions r).head? = some (n, inp)) := by
  constructor
  · exact fun line nc ic h => matchActionCs_spec line nc ic h
  · intro pyEval llm question max_turns i n inp obs h
    obtain ⟨p, r, h1, h2, _⟩ :=
      queryLoop_runAction pyEval llm max_turns _ question i n inp obs h
    exact ⟨p, r, h1, h2⟩

/-- Witness for C5: the matcher accepts a literal action line, and the first
executed action of the scripted run comes from the head match of the first
response. -/
theorem c5_action_regex_witness :
    matchActionCs "Action: calculate: 4 * 7 / 3".data =
      some ("calculate".data, "4 * 7 / 3".data) ∧
    ∃ p r, (query exampleEval (scriptedLLM exampleScript) "q" 5).1[0]? =
        some (QEvent.modelCall p r) ∧
      (parsedActions r).head? = some ("calculate", "2 + 2") := by
  constructor
  · exact (c5_action_regex.1 "Action: calculate: 4 * 7 / 3".data
      "calculate".data "4 * 7 / 3".data (by decide)).2 (by decide)
  · exact c5_action_regex.2 exampleEval (scriptedLLM exampleScript) "q" 5 0
      "calculate" "2 + 2" "evaluated 2 + 2" (by decide)

/-- C6: when the first parsed action of a model response names an action
that is not a key of `known_actions`, `query` raises the exception
`Unknown action: <action>: <action_input>` and the run ends there; when it
is a key, the mapped function is applied to the action input (producing the
recorded observation) and the next prompt sent to the model is
`Observation: <observation>`. -/
theorem c6_unknown_action (pyEval : String → String) (llm : List ChatMsg → String)
    (question : String) (max_turns : Nat) :
    ∀ (i : Nat) (p r a inp : String),
      (query pyEval llm question max_turns).1[i]? = some (QEvent.modelCall p r) →
      (parsedActions r).head? = some (a, inp) →
      ((knownActions pyEval).lookup a = none →
        (query pyEval llm question max_turns).2 =
          QOutcome.raised ("Unknown action: " ++ a ++ ": " ++ inp) ∧
        (query pyEval llm question max_turns).1.length = i + 1) ∧
      (∀ f, (knownActions pyEval).lookup a = some f →
        (query pyEval llm question max_turns).1[i + 1]? =
          some (QEvent.runAction a inp (f inp)) ∧
        ∀ p2 r2, (query pyEval llm question max_turns).1[i + 2]? =
            some (QEvent.modelCall p2 r2) →
          p2 = "Observation: " ++ f inp) :=
  fun i p r a inp h1 h2 =>
    queryLoop_dispatch pyEval llm max_turns _ question i p r a inp h1 h2

/-- Witness for C6: the unknown tool `foo` raises with the exact message and
ends the run; the known action `calculate` runs the mapped function and the
next prompt carries the observation. -/
theorem c6_unknown_action_witness :
    ((query exampleEval (scriptedLLM exampleBadScript) "q" 5).2 =
        QOutcome.raised ("Unknown action: " ++ "foo" ++ ": " ++ "x") ∧
      (query exampleEval (scriptedLLM exampleBadScript) "q" 5).1.length = 0 + 1) ∧
    (query exampleEval (scriptedLLM exampleScript) "q" 5).1[0 + 1]? =
      some (QEvent.runAction "calculate" "2 + 2" (exampleEval "2 + 2")) := by
  constructor
  · exact (c6_unknown_action exampleEval (scriptedLLM exampleBadScript) "q" 5 0 "q"
      "Action: foo: x\nPAUSE" "foo" "x" (by decide) (by decide)).1 rfl
  · exact ((c6_unknown_action exampleEval (scriptedLLM exampleScript) "q" 5 0 "q"
      "Action: calculate: 2 + 2\nPAUSE" "calculate" "2 + 2" (by decide)
      (by decide)).2 exampleEval rfl).1

/-- C7 counterexample: the two loops do not produce the same sequence of
model calls and tool invocations for the same model outputs, and they do
not agree on unknown tool names: with a model that requests the unknown
tool `foo` and then stops, the LangGraph agent processes the bad call
(answering `bad tool name, retry`) and calls the model again — events
`modelCall, toolRun foo x, modelCall` — while the hand-rolled `query` makes
a single model call and raises `Unknown action: foo: x`. -/
theorem c7_counterexample :
    (runAgentGraph "sys" (knownActions exampleEval) id
        (scriptedModel exampleBadScript) 3 [LMessage.human "q"]).map
        (fun gr => gr.events) =
      some [AgentEvent.modelCall, AgentEvent.toolRun "foo" "x", AgentEvent.modelCall] ∧
    queryAgentEvents (query exampleEval (scriptedLLM exampleBadScript) "q" 5).1 =
      [AgentEvent.modelCall] ∧
    (query exampleEval (scriptedLLM exampleBadScript) "q" 5).2 =
      QOutcome.raised "Unknown action: foo: x" ∧
    ([AgentEvent.modelCall] : List AgentEvent) ≠
      [AgentEvent.modelCall, AgentEvent.toolRun "foo" "x", AgentEvent.modelCall] :=
  ⟨by decide, by decide, by decide, by decide⟩

/-- C7 amended: for every run in which the model produces the same outputs
in both harnesses — at each turn either one action request naming a known
tool (a non-empty word-character name and newline-free input) or, within
the turn bound, a final answer with no action line — the LangGraph agent
and the hand-rolled `query` produce the same alternating sequence of model
calls and tool invocations and agree on when the loop terminates; on an
unknown tool name they differ (`take_action` answers `bad tool name,
retry` and continues, `query` raises; see the counterexample). -/
theorem c7_amended_agreement (pyEval : String → String)
    (script : Nat → Option (String × String)) (k : Nat) (sys question : String)
    (fuel max_turns : Nat)
    (hgood : ∀ j, j < k → ∃ n i, script j = some (n, i) ∧
      ((knownActions pyEval).lookup n).isSome = true ∧ n.data ≠ [] ∧
      (∀ c ∈ n.data, isWordChar c = true) ∧ '\n' ∉ i.data)
    (hend : script k = none) (hfuel : k + 1 ≤ fuel) (hmt : k + 1 ≤ max_turns) :
    ∃ gr, runAgentGraph sys (knownActions pyEval) id (scriptedModel script) fuel
        [LMessage.human question] = some gr ∧
      gr.events = expectedEvents script 0 k ∧
      queryAgentEvents (query pyEval (scriptedLLM script) question max_turns).1 =
        expectedEvents script 0 k ∧
      (query pyEval (scriptedLLM script) question max_turns).2 =
        QOutcome.returned := by
  have hai : aiCount [LMessage.human question] = 0 := by
    simp [aiCount, List.filter_cons, isAI]
  have hgood2 : ∀ j, j < k → (script (0 + j)).isSome = true := by
    intro j hj
    obtain ⟨n, i, hsc, _⟩ := hgood j hj
    rw [Nat.zero_add, hsc]
    rfl
  have hend0 : script (0 + k) = none := by rwa [Nat.zero_add]
  obtain ⟨gr, hgr, hev, _⟩ := runAgentGraph_scripted sys (knownActions pyEval) id
    script k 0 fuel [LMessage.human question] hai hfuel hgood2 hend0
  have hcount : assistantCount (RAgent.init react_prompt).messages = 0 := rfl
  have hgoodq : ∀ j, j < k → ∃ n i, script (0 + j) = some (n, i) ∧
      ((knownActions pyEval).lookup n).isSome = true ∧ n.data ≠ [] ∧
      (∀ c ∈ n.data, isWordChar c = true) ∧ '\n' ∉ i.data := by
    intro j hj
    rw [Nat.zero_add]
    exact hgood j hj
  have hq := queryLoop_scripted pyEval script k 0 max_turns
    (RAgent.init react_prompt) question hcount hmt hgoodq hend0
  exact ⟨gr, hgr, hev, hq.1, hq.2⟩

/-- Witness for the amended C7: the one-action `calculate` script. -/
theorem c7_amended_agreement_witness :
    ∃ gr, runAgentGraph "sys" (knownActions exampleEval) id
        (scriptedModel exampleScript) 2 [LMessage.human "q"] = some gr ∧
      gr.events = expectedEvents exampleScript 0 1 ∧
      queryAgentEvents (query exampleEval (scriptedLLM exampleScript) "q" 5).1 =
        expectedEvents exampleScript 0 1 ∧
      (query exampleEval (scriptedLLM exampleScript) "q" 5).2 = QOutcome.returned :=
  c7_amended_agreement exampleEval exampleScript 1 "sys" "q" 2 5
    (fun j hj => by
      have hj0 : j = 0 := by omega
      subst hj0
      exact ⟨"calculate", "2 + 2", rfl, rfl, by decide, by decide, by decide⟩)
    rfl (by omega) (by omega)

/-- C8 counterexample: the claim that tool dispatch is performed entirely by
the imported libraries is false on the code: `take_action`, repository
code, itself selects which tool function runs by dictionary lookup on the
call's name — with two tools installed the call named `t2` is answered by
the second tool's function and the call named `t1` by the first's — and
`query`, repository code, selects and applies `known_actions[action]`. -/
theorem c8_counterexample :
    take_action [("t1", fun _ => "one"), ("t2", fun _ => "two")] (fun r => r)
        [LMessage.ai "" [⟨"t2", "args", "idA"⟩]] =
      [LMessage.tool "idA" "t2" "two"] ∧
    take_action [("t1", fun _ => "one"), ("t2", fun _ => "two")] (fun r => r)
        [LMessage.ai "" [⟨"t1", "args", "idA"⟩]] =
      [LMessage.tool "idA" "t1" "one"] ∧
    (query exampleEval (scriptedLLM exampleScript) "q" 5).1[1]? =
      some (QEvent.runAction "calculate" "2 + 2" (exampleEval "2 + 2")) :=
  ⟨by decide, by decide, by decide⟩

/-- C8 amended: in the network-assistant notebook dispatch is delegated to
LangChain's `initialize_agent`/`agent.run`, but in the LangGraph notebook
and the hand-rolled ReAct notebook tool dispatch is performed by code
defined in the repository: `take_action` answers each call with the tool
obtained by its own dictionary lookup on the call's name, and every action
executed by `query` applies exactly the function `known_actions[action]` to
the action input. -/
theorem c8_amended_repo_dispatch :
    (∀ (R : Type) (tools : List (String × (String → R))) (pyStr : R → String)
        (msgs : List LMessage) (i : Nat) (t : ToolCall) (f : String → R),
      (toolCalls (msgs.getLastD (LMessage.ai "" [])))[i]? = some t →
      toolsDict tools t.name = some f →
      (take_action tools pyStr msgs)[i]? =
        some (LMessage.tool t.id t.name (pyStr (f t.args)))) ∧
    (∀ (pyEval : String → String) (llm : List ChatMsg → String)
        (question : String) (max_turns i : Nat) (n inp obs : String),
      (query pyEval llm question max_turns).1[i]? =
        some (QEvent.runAction n inp obs) →
      ∃ f, (knownActions pyEval).lookup n = some f ∧ obs = f inp) := by
  constructor
  · intro R tools pyStr msgs i t f ht hf
    rw [take_action, List.getElem?_map, ht]
    simp [hf]
  · intro pyEval llm question max_turns i n inp obs h
    cases i with
    | zero =>
      have := queryLoop_zero pyEval llm max_turns (RAgent.init react_prompt)
        question _ h
      cases this
    | succ j =>
      obtain ⟨p, r, _, _, f, hf, ho⟩ :=
        queryLoop_runAction pyEval llm max_turns _ question j n inp obs h
      exact ⟨f, hf, ho⟩

/-- Witness for the amended C8: one installed tool answers its own call, and
the scripted run's executed action applies `known_actions["calculate"]`. -/
theorem c8_amended_repo_dispatch_witness :
    (take_action [("t1", fun s => "R" ++ s)] (fun r => r)
        [LMessage.ai "" [⟨"t1", "a", "i1"⟩]])[0]? =
      some (LMessage.tool "i1" "t1" ("R" ++ "a")) ∧
    ∃ f, (knownActions exampleEval).lookup "calculate" = some f ∧
      exampleEval "2 + 2" = f "2 + 2" := by
  constructor
  · exact c8_amended_repo_dispatch.1 String [("t1", fun s => "R" ++ s)] (fun r => r)
      [LMessage.ai "" [⟨"t1", "a", "i1"⟩]] 0 ⟨"t1", "a", "i1"⟩ (fun s => "R" ++ s)
      rfl rfl
  · exact c8_amended_repo_dispatch.2 exampleEval (scriptedLLM exampleScript) "q" 5 1
      "calculate" "2 + 2" (exampleEval "2 + 2") (by decide)

/-- C9: `analyze_logs` returns the fixed sentence exactly when the log
contains neither `error` nor `warning` case-insensitively; otherwise it
returns the newline-join of every `error.*` match followed by every
`warning.*` match, each match case-insensitive and running to the end of
its line; the embedding is a total function, matching that the Python
function can raise no exception. -/
theorem c9_analyze_logs (log_data : List Char) :
    (analyze_logs log_data = "No issues found in the logs.".data ↔
      containsSub "error".data (log_data.map Char.toLower) = false ∧
      containsSub "warning".data (log_data.map Char.toLower) = false) ∧
    (containsSub "error".data (log_data.map Char.toLower) = true ∨
        containsSub "warning".data (log_data.map Char.toLower) = true →
      analyze_logs log_data =
        joinNL (findall 'e' "rror".data log_data ++
          findall 'w' "arning".data log_data)) := by
  constructor
  · constructor
    · intro h
      by_contra hcon
      have hor : containsSub "error".data (log_data.map Char.toLower) = true ∨
          containsSub "warning".data (log_data.map Char.toLower) = true := by
        rcases Bool.eq_false_or_eq_true
            (containsSub "error".data (log_data.map Char.toLower)) with h1 | h1
        · exact Or.inl h1
        · rcases Bool.eq_false_or_eq_true
              (containsSub "warning".data (log_data.map Char.toLower)) with h2 | h2
          · exact Or.inr h2
          · exact absurd ⟨h1, h2⟩ hcon
      exact absurd h (analyze_logs_pos log_data hor).2
    · rintro ⟨h1, h2⟩
      rw [analyze_logs_eq]
      rw [if_pos (by
        rw [(findall_error_nil_iff log_data).2 h1,
          (findall_warning_nil_iff log_data).2 h2]
        rfl)]
  · exact fun h => (analyze_logs_pos log_data h).1

/-- Witness for C9: a log with an error and a warning line, and a clean
log. -/
theorem c9_analyze_logs_witness :
    analyze_logs "ok line\nError: disk full\nWARNING: cpu hot".data =
      joinNL (findall 'e' "rror".data "ok line\nError: disk full\nWARNING: cpu hot".data ++
        findall 'w' "arning".data "ok line\nError: disk full\nWARNING: cpu hot".data) ∧
    analyze_logs "all good".data = "No issues found in the logs.".data := by
  constructor
  · exact (c9_analyze_logs _).2 (Or.inl (by decide))
  · exact (c9_analyze_logs _).1.2 ⟨by decide, by decide⟩

/-- C10: each `__call__` appends exactly two entries to the transcript — the
user entry for the given message and then the assistant entry for the
model's reply on the transcript extended by that user entry — leaving every
existing entry (and the system string) untouched and returning the reply;
consequently after any sequence of calls on an agent constructed with a
non-empty system string, `messages[0]` is still the system entry. -/
theorem c10_transcript_append (llm : List ChatMsg → String) :
    (∀ (a : RAgent) (m : String),
      ((RAgent.call llm a m).1).messages =
        a.messages ++ [⟨"user", m⟩,
          ⟨"assistant", llm (a.messages ++ [⟨"user", m⟩])⟩] ∧
      ((RAgent.call llm a m).1).system = a.system ∧
      (RAgent.call llm a m).2 = llm (a.messages ++ [⟨"user", m⟩])) ∧
    (∀ (system : String) (ms : List String), system ≠ "" →
      (callMany llm (RAgent.init system) ms).messages[0]? =
        some ⟨"system", system⟩) := by
  constructor
  · intro a m
    refine ⟨?_, rfl, rfl⟩
    simp [RAgent.call]
  · intro sys ms hs
    have hinit : (RAgent.init sys).messages = [⟨"system", sys⟩] := by
      simp [RAgent.init, hs]
    have h := callMany_head llm ms (RAgent.init sys) (by rw [hinit]; simp)
    rw [← List.head?_eq_getElem? _, h.1, hinit]
    rfl

/-- Witness for C10: two calls on an agent with a non-empty system string
leave the system entry at position 0. -/
theorem c10_transcript_append_witness :
    (callMany (fun _ => "reply") (RAgent.init "be helpful") ["hi", "there"]).messages[0]? =
      some ⟨"system", "be helpful"⟩ :=
  (c10_transcript_append (fun _ => "reply")).2 "be helpful" ["hi", "there"] (by decide)
